import Mathlib

/-
Verification of the bittensor tensor-envelope codec (src/bittensor/tensor.py)
and of the weight/bond conversion utilities described by the specification
(their module is exercised by src/tests/unit_tests/utils/test_weight_utils.py).

The numeric payloads are embedded exactly: machine integers as `Int` with
explicit wrap-around arithmetic, floating payloads as exact rationals
(the byte-preserving external codec never performs float arithmetic, so the
round-trip facts proved here do not depend on float rounding).
-/

namespace Bittensor

/-- The supported element-type enumeration, the keys of `NUMPY_DTYPES` in
src/bittensor/tensor.py. -/
inductive Dtype
  | float16 | float32 | float64
  | uint8 | int16 | int8 | int32 | int64
  | bool
deriving DecidableEq

/-- The canonical string name of a dtype, i.e. `str(np.dtype)` for the nine
supported numpy dtypes. -/
def Dtype.name : Dtype → String
  | .float16 => "float16"
  | .float32 => "float32"
  | .float64 => "float64"
  | .uint8 => "uint8"
  | .int16 => "int16"
  | .int8 => "int8"
  | .int32 => "int32"
  | .int64 => "int64"
  | .bool => "bool"

/-- String-keyed lookup in the `NUMPY_DTYPES` dict of src/bittensor/tensor.py:
`NUMPY_DTYPES[s]` succeeds exactly on the nine canonical names and yields the
corresponding numpy scalar type object, which we tag by its `Dtype`. -/
def NUMPY_DTYPES_get (s : String) : Option Dtype :=
  if s = "float16" then some .float16
  else if s = "float32" then some .float32
  else if s = "float64" then some .float64
  else if s = "uint8" then some .uint8
  else if s = "int16" then some .int16
  else if s = "int8" then some .int8
  else if s = "int32" then some .int32
  else if s = "int64" then some .int64
  else if s = "bool" then some .bool
  else none

theorem NUMPY_DTYPES_get_name (d : Dtype) : NUMPY_DTYPES_get d.name = some d := by
  cases d <;> rfl

/-- One array element: integer dtypes and bool carry an `Int`, float dtypes
carry their payload as an exact rational. -/
inductive Scalar
  | int (z : Int)
  | rat (q : Rat)
deriving DecidableEq

/-- Truncation toward zero, the C-style float-to-integer conversion used by
`ndarray.astype`. -/
def ratTrunc (q : Rat) : Int :=
  if 0 ≤ q then ⌊q⌋ else -⌊-q⌋

/-- The numeric value of a scalar as an integer (used when casting to an
integer dtype). -/
def Scalar.toIntVal : Scalar → Int
  | .int z => z
  | .rat q => ratTrunc q

/-- Unsigned wrap-around to `bits` bits. -/
def wrapU (bits : Nat) (z : Int) : Int := z % (2 : Int) ^ bits

/-- Signed (two's-complement) wrap-around to `bits` bits. -/
def wrapS (bits : Nat) (z : Int) : Int :=
  (z + 2 ^ (bits - 1)) % (2 : Int) ^ bits - 2 ^ (bits - 1)

/-- Element-level semantics of `ndarray.astype(target)`: values are converted
to the target dtype, never rejected.  Casting to a float dtype keeps the exact
value (float rounding is abstracted as exact; no claim here exercises float
narrowing), casting to an integer dtype truncates and wraps, casting to bool
tests against zero. -/
def castScalar (d : Dtype) (s : Scalar) : Scalar :=
  match d with
  | .float16 | .float32 | .float64 =>
      match s with
      | .int z => .rat (z : Rat)
      | .rat q => .rat q
  | .uint8 => .int (wrapU 8 s.toIntVal)
  | .int8 => .int (wrapS 8 s.toIntVal)
  | .int16 => .int (wrapS 16 s.toIntVal)
  | .int32 => .int (wrapS 32 s.toIntVal)
  | .int64 => .int (wrapS 64 s.toIntVal)
  | .bool => .int (if s = .int 0 ∨ s = .rat 0 then 0 else 1)

/-- Whether a scalar is a well-formed element of the given dtype: integer
dtypes carry an in-range `Int`, bool carries 0 or 1, float dtypes carry a
rational payload. -/
def Scalar.validB (d : Dtype) (s : Scalar) : Bool :=
  match d, s with
  | .float16, .rat _ => true
  | .float32, .rat _ => true
  | .float64, .rat _ => true
  | .uint8, .int z => decide (0 ≤ z ∧ z < 256)
  | .int8, .int z => decide (-128 ≤ z ∧ z < 128)
  | .int16, .int z => decide (-32768 ≤ z ∧ z < 32768)
  | .int32, .int z => decide (-(2 ^ 31) ≤ z ∧ z < 2 ^ 31)
  | .int64, .int z => decide (-(2 ^ 63) ≤ z ∧ z < 2 ^ 63)
  | .bool, .int z => decide (z = 0 ∨ z = 1)
  | _, _ => false

theorem castScalar_of_valid (d : Dtype) (s : Scalar) (h : Scalar.validB d s = true) :
    castScalar d s = s := by
  cases d <;> cases s <;> simp_all [Scalar.validB, castScalar, Scalar.toIntVal, wrapU, wrapS]
  · exact Int.emod_eq_of_lt h.1 h.2
  · omega
  · omega
  · omega
  · omega
  · rcases h with h | h <;> simp [h]

/-- An n-dimensional numpy array: element type, shape, and the row-major
element buffer. -/
structure NDArray where
  dtype : Dtype
  shape : List Nat
  data : List Scalar
deriving DecidableEq

/-- Well-formedness of an ndarray: the buffer length matches the product of
the shape, and every element is a value of the element type. -/
def NDArray.wfB (a : NDArray) : Bool :=
  decide (a.data.length = a.shape.prod) && a.data.all (Scalar.validB a.dtype)

/-- Semantics of `ndarray.astype(d)`: every element converted to dtype `d`; the shape is
unchanged. -/
def NDArray.astype (a : NDArray) (d : Dtype) : NDArray :=
  { dtype := d, shape := a.shape, data := a.data.map (castScalar d) }

/-- Semantics of `ndarray.reshape(shape)` for a declared envelope shape (numpy requires
every dimension non-negative and the element count to equal the product). -/
def reshape (a : NDArray) (shape : List Int) : Option NDArray :=
  if (∀ d ∈ shape, 0 ≤ d) ∧ a.data.length = (shape.map Int.toNat).prod
  then some { a with shape := shape.map Int.toNat }
  else none

/-- The `base64(msgpack.packb(tensor, default=msgpack_numpy.encode))` buffer.
The external msgpack-numpy + base64 codec is out of scope for this repository
(spec section 6); it is modelled as a lossless self-describing container for
the packed ndarray, which is exactly the round-trip guarantee that library
provides. -/
structure Packed where
  arr : NDArray
deriving DecidableEq

/-- The pydantic `Tensor` envelope of src/bittensor/tensor.py: a base64
msgpack buffer, a dtype string and a shape list. -/
structure Tensor where
  buffer : Packed
  dtype : String
  shape : List Int
deriving DecidableEq

/-- Embedding of `Tensor.serialize` (src/bittensor/tensor.py lines 149-170):
`dtype = str(tensor.dtype)`, `shape = list(tensor.shape)` canonicalized to
`[0]` for rank 0, `buffer = base64(msgpack.packb(tensor))`.  The pydantic
field validators (`cast_dtype`, `cast_shape`) are the identity on these field
values: the dtype string is a canonical name and the shape is a non-empty
list of integers. -/
def Tensor.serialize (t : NDArray) : Tensor :=
  let shape : List Int := t.shape.map Int.ofNat
  { buffer := ⟨t⟩
    shape := if shape.length = 0 then [0] else shape
    dtype := t.dtype.name }

/-- Embedding of `Tensor.deserialize` (src/bittensor/tensor.py lines 128-147): decode the
buffer, reshape to the declared shape unless the declared shape is exactly
`[0]` ("Reshape does not work for (0) or [0]"), then `astype` to
`NUMPY_DTYPES[self.dtype]`.  `none` models the raised exception
(malformed reshape or a dtype string outside the enumeration). -/
def Tensor.deserialize (t : Tensor) : Option NDArray :=
  let numpy := t.buffer.arr
  let step : Option NDArray :=
    if ¬(t.shape.length = 1 ∧ t.shape.headD 1 = 0)
    then reshape numpy t.shape
    else some numpy
  match step, NUMPY_DTYPES_get t.dtype with
  | some arr, some d => some (arr.astype d)
  | _, _ => none

theorem map_castScalar_of_valid (d : Dtype) (l : List Scalar)
    (h : l.all (Scalar.validB d) = true) : l.map (castScalar d) = l := by
  induction l with
  | nil => rfl
  | cons x xs ih =>
    simp only [List.all_cons, Bool.and_eq_true] at h
    simp [castScalar_of_valid d x h.1, ih h.2]

theorem astype_of_valid (a : NDArray) (h : a.data.all (Scalar.validB a.dtype) = true) :
    a.astype a.dtype = a := by
  cases a with
  | mk d sh dat => simp [NDArray.astype, map_castScalar_of_valid d dat h]

theorem toNat_ofNat_shape (l : List Nat) : (l.map Int.ofNat).map Int.toNat = l := by
  induction l with
  | nil => rfl
  | cons x xs ih => simp [ih]

theorem reshape_self (A : NDArray) (hlen : A.data.length = A.shape.prod) :
    reshape A (A.shape.map Int.ofNat) = some A := by
  unfold reshape
  have hc : (∀ d ∈ A.shape.map Int.ofNat, 0 ≤ d) ∧
      A.data.length = ((A.shape.map Int.ofNat).map Int.toNat).prod := by
    constructor
    · intro d hd
      obtain ⟨x, -, rfl⟩ := List.mem_map.mp hd
      exact Int.ofNat_nonneg x
    · rw [toNat_ofNat_shape]
      exact hlen
  rw [if_pos hc, toNat_ofNat_shape]

/-- C1: for every well-formed NumericArray (element type in the supported
enumeration, buffer consistent with shape, elements valid for the element
type — including empty and rank-0 arrays), deserializing the envelope
produced by `Tensor.serialize` yields the array back, element-wise and
shape-wise identical. -/
theorem C1_serialize_roundtrip (A : NDArray) (h : A.wfB = true) :
    (Tensor.serialize A).deserialize = some A := by
  have h' := h
  simp only [NDArray.wfB, Bool.and_eq_true, decide_eq_true_eq] at h'
  obtain ⟨hlen, hval⟩ := h'
  have hast : A.astype A.dtype = A := astype_of_valid A hval
  by_cases h0 : A.shape = []
  · simp [Tensor.serialize, Tensor.deserialize, h0, NUMPY_DTYPES_get_name, hast]
  by_cases h00 : A.shape = [0]
  · simp [Tensor.serialize, Tensor.deserialize, h00, NUMPY_DTYPES_get_name, hast]
  · have hne : ¬((A.shape.map Int.ofNat).length = 0) := by
      simp only [List.length_map, List.length_eq_zero]
      exact h0
    have hcond : ¬((A.shape.map Int.ofNat).length = 1 ∧
        (A.shape.map Int.ofNat).headD 1 = 0) := by
      rintro ⟨hc1, hc2⟩
      apply h00
      cases hsh : A.shape with
      | nil => exact absurd hsh h0
      | cons a l =>
        cases l with
        | nil =>
          rw [hsh] at hc2
          simp only [List.map_cons, List.map_nil, List.headD_cons] at hc2
          have ha : a = 0 := by simpa using hc2
          rw [ha]
        | cons b m =>
          rw [hsh] at hc1
          simp at hc1
    have hser : Tensor.serialize A =
        { buffer := ⟨A⟩, dtype := A.dtype.name, shape := A.shape.map Int.ofNat } := by
      simp only [Tensor.serialize]
      rw [if_neg hne]
    rw [hser]
    simp only [Tensor.deserialize]
    rw [if_pos hcond, reshape_self A hlen, NUMPY_DTYPES_get_name]
    simp [hast]

/-- Witness for C1 at a concrete int32 array of shape [2]. -/
theorem C1_serialize_roundtrip_witness :
    (Tensor.serialize ⟨.int32, [2], [.int 1, .int 2]⟩).deserialize =
      some ⟨.int32, [2], [.int 1, .int 2]⟩ :=
  C1_serialize_roundtrip ⟨.int32, [2], [.int 1, .int 2]⟩ (by decide)

/-- C10: deserialization casts to the declared dtype rather than rejecting a
mismatch: for every envelope whose dtype string is in the supported
enumeration and whose decoded buffer fits the declared shape, `deserialize`
returns an array whose element type is the declared dtype and whose elements
are the buffer's elements cast to that dtype — with no hypothesis relating
the declared dtype to the element type the buffer was encoded with. -/
theorem C10_deserialize_casts_to_declared_dtype (t : Tensor) (d : Dtype)
    (hd : NUMPY_DTYPES_get t.dtype = some d)
    (hs : (t.shape.length = 1 ∧ t.shape.headD 1 = 0) ∨
      ((∀ x ∈ t.shape, 0 ≤ x) ∧
        t.buffer.arr.data.length = (t.shape.map Int.toNat).prod)) :
    ∃ a, t.deserialize = some a ∧ a.dtype = d ∧
      a.data = t.buffer.arr.data.map (castScalar d) := by
  simp only [Tensor.deserialize]
  by_cases hc : t.shape.length = 1 ∧ t.shape.headD 1 = 0
  · rw [if_neg (not_not_intro hc), hd]
    exact ⟨_, rfl, rfl, rfl⟩
  · rcases hs with hs | hs
    · exact absurd hs hc
    · rw [if_pos hc]
      unfold reshape
      rw [if_pos hs, hd]
      exact ⟨_, rfl, rfl, rfl⟩

/-- Witness for C10: a buffer encoded as float32 holding 3/2, deserialized
under a declared dtype of int32, succeeds and truncates to the integer 1. -/
theorem C10_deserialize_casts_witness :
    ∃ a, Tensor.deserialize ⟨⟨⟨.float32, [1], [.rat (3/2)]⟩⟩, "int32", [1]⟩ = some a ∧
      a.dtype = .int32 ∧
      a.data = [Scalar.rat (3/2)].map (castScalar .int32) :=
  C10_deserialize_casts_to_declared_dtype _ _ (by decide) (Or.inr (by decide))

/-- Python error classes raised by the embedded functions. -/
inductive PyErr
  | keyError | assertionError | exception | indexError | valueError
deriving DecidableEq

/-- A numpy dtype descriptor object (`np.dtype(...)`): either one of the nine
supported descriptors or a descriptor outside the enumeration. -/
inductive NpDescr
  | supported (d : Dtype)
  | unsupported (name : String)
deriving DecidableEq

/-- The possible runtime arguments of `cast_dtype`. -/
inductive DtypeRaw
  | pynone
  | npdtype (x : NpDescr)
  | str (s : String)
  | other
deriving DecidableEq

/-- The possible return values of `cast_dtype`: Python `None` or a string.
The `np.dtype` branch never returns: its dict lookup raises (see
`cast_dtype`). -/
inductive CastDtypeResult
  | pynone
  | str (s : String)
deriving DecidableEq

/-- Embedding of `cast_dtype` (src/bittensor/tensor.py lines 39-64).
`if not raw` returns `None` (covering `None` and the empty string).  An
`np.dtype` argument is looked up in `NUMPY_DTYPES`; Python dict lookup is
hash-then-equality, the dict is keyed by the nine name strings, and an
`np.dtype` object does not hash equal to its name string (numpy hashes a
dtype from its descriptor attributes, not from the name), so the lookup
finds no slot and raises KeyError for EVERY `np.dtype` argument — supported
descriptor or not — and the dict value is never returned.  A string is
asserted to be a key and returned unchanged (AssertionError otherwise);
any other type raises a plain Exception. -/
def cast_dtype : DtypeRaw → Except PyErr CastDtypeResult
  | .pynone => .ok .pynone
  | .npdtype (.supported _) => .error .keyError
  | .npdtype (.unsupported _) => .error .keyError
  | .str s =>
      if s = "" then .ok .pynone
      else if (NUMPY_DTYPES_get s).isSome then .ok (.str s)
      else .error .assertionError
  | .other => .error .exception

/-- C2: evaluating `cast_dtype` at the failing input `np.dtype("float32")`:
the string-keyed `NUMPY_DTYPES` dict has no slot hashing equal to an
`np.dtype` object, so the lookup raises KeyError — the call never yields the
canonical string name that the claim (and the function's own docstring
"Returns: str" and `-> str` annotation) promise, even for a descriptor
inside the supported enumeration; by contrast the canonical string input
does return the string. -/
theorem C2_cast_dtype_dtype_branch_raises :
    cast_dtype (.npdtype (.supported .float32)) = .error .keyError ∧
      cast_dtype (.str "float32") = .ok (.str "float32") :=
  ⟨rfl, rfl⟩

/-- An element of a Python list passed to `cast_shape`: an integer or a value
of some non-integer type (tagged by a string). -/
inductive PyElem
  | int (z : Int)
  | str (s : String)
deriving DecidableEq

/-- Python `isinstance(x, int)`. -/
def PyElem.isInt : PyElem → Bool
  | .int _ => true
  | .str _ => false

/-- The possible runtime arguments of `cast_shape`. -/
inductive ShapeRaw
  | pynone
  | list (xs : List PyElem)
  | str (s : String)
  | other
deriving DecidableEq

/-- The possible return values of `cast_shape`: Python `None`, the original
list returned unchanged, or the integers parsed from a shape string. -/
inductive CastShapeResult
  | pynone
  | list (xs : List PyElem)
  | ints (xs : List Int)
deriving DecidableEq

/-- Python `s.split(sep)` for a one-character separator (the only separators
`cast_shape` uses are "[", "]" and ","): the list of chunks between
occurrences of the separator, `[""]` for the empty string. -/
def pySplitChar (sep : Char) : List Char → List (List Char)
  | [] => [[]]
  | c :: rest =>
      match pySplitChar sep rest with
      | [] => [[c]]
      | t :: ts => if c = sep then [] :: t :: ts else (c :: t) :: ts

/-- Surrounding-whitespace stripping, as Python `int` applies to its string
argument. -/
def pyTrim (s : List Char) : List Char :=
  ((s.dropWhile (·.isWhitespace)).reverse.dropWhile (·.isWhitespace)).reverse

/-- The numeric value of a digit string, most significant digit first. -/
def digitsToNat (l : List Char) : Nat :=
  l.foldl (fun acc c => 10 * acc + (c.toNat - 48)) 0

/-- Python `int(token)` on a string token: surrounding whitespace is
stripped, then an optional sign followed by one or more digits (the
numeric-literal underscore of Python is not modelled); anything else raises
ValueError, modelled as `none`. -/
def pyParseInt (s : List Char) : Option Int :=
  let t := pyTrim s
  match t with
  | '-' :: ds => if ds ≠ [] ∧ ds.all (·.isDigit) then some (-(digitsToNat ds : Int)) else none
  | '+' :: ds => if ds ≠ [] ∧ ds.all (·.isDigit) then some (digitsToNat ds : Int) else none
  | ds => if ds ≠ [] ∧ ds.all (·.isDigit) then some (digitsToNat ds : Int) else none

/-- Embedding of `cast_shape` (src/bittensor/tensor.py lines 67-95).  `if not raw` returns
`None` (covering `None`, the empty list and the empty string — the source's
`len(raw) == 0` branch is unreachable because an empty list is falsy); a
non-empty list is returned unchanged when its FIRST element is an `int` and
raises otherwise (elements after the first are never inspected); a string is
parsed as `raw.split("[")[1].split("]")[0].split(",")` with each token passed
to `int` (IndexError when the string contains no "[", ValueError when a
token is not an integer); any other type raises a plain Exception. -/
def cast_shape : ShapeRaw → Except PyErr CastShapeResult
  | .pynone => .ok .pynone
  | .list xs =>
      match xs with
      | [] => .ok .pynone
      | x :: rest =>
          if x.isInt then .ok (.list (x :: rest))
          else .error .exception
  | .str s =>
      if s = "" then .ok .pynone
      else
        match (pySplitChar '[' s.toList).get? 1 with
        | none => .error .indexError
        | some inner =>
            match (pySplitChar ',' ((pySplitChar ']' inner).headD [])).mapM pyParseInt with
            | some zs => .ok (.ints zs)
            | none => .error .valueError
  | .other => .error .exception

/-- C3 counterexample: the claim says the call fails whenever ANY list
element is a non-integer, but `cast_shape` inspects only the first element:
on the list `[1, "a"]` it succeeds and returns the list unchanged even
though the second element is not an integer. -/
theorem C3_cast_shape_counterexample :
    cast_shape (.list [.int 1, .str "a"]) = .ok (.list [.int 1, .str "a"]) ∧
      PyElem.isInt (.str "a") = false :=
  ⟨rfl, rfl⟩

/-- C3 (amended): `None` and empty inputs are accepted, returning `None`; a
non-empty list is accepted iff its FIRST element is an integer, in which case
it is returned unchanged with later elements never checked, and the call
fails otherwise; string parsing applies `int` to every bracket-delimited
comma-separated token, yielding the parsed integers when all tokens parse
and failing with ValueError when some token is not an integer. -/
theorem C3_cast_shape_amended :
    (cast_shape .pynone = .ok .pynone ∧ cast_shape (.list []) = .ok .pynone ∧
      cast_shape (.str "") = .ok .pynone) ∧
    (∀ x rest, cast_shape (.list (x :: rest)) =
      if x.isInt then .ok (.list (x :: rest)) else .error .exception) ∧
    (∀ s inner, s ≠ "" → (pySplitChar '[' s.toList).get? 1 = some inner →
      cast_shape (.str s) =
        match (pySplitChar ',' ((pySplitChar ']' inner).headD [])).mapM pyParseInt with
        | some zs => .ok (.ints zs)
        | none => .error .valueError) := by
  refine ⟨⟨rfl, rfl, rfl⟩, fun x rest => rfl, fun s inner hs hsplit => ?_⟩
  simp only [cast_shape]
  rw [if_neg hs, hsplit]

/-- Witness for C3 (amended) at the concrete shape string "[2, 3]". -/
theorem C3_cast_shape_amended_witness :
    cast_shape (.str "[2, 3]") = .ok (.ints [2, 3]) := by
  rw [C3_cast_shape_amended.2.2 "[2, 3]" "2, 3]".toList (by decide) (by decide)]
  rfl

/-- Error taxonomy of the dense-scatter paths (spec section 7). -/
inductive ScatterError
  | invalidArgument
  | lengthMismatch
  | indexOutOfRange
deriving DecidableEq

/-- Write the sparse pairs into a dense vector in input order, later
duplicate indices overwriting earlier ones (last-write-wins). -/
def applyWrites (init : List Rat) (pairs : List (Int × Rat)) : List Rat :=
  pairs.foldl (fun acc p => acc.set p.1.toNat p.2) init

/-- Modelled from the spec: `DenseScatter.scatter` (spec section 4.2); the
module `bittensor/utils/weight_utils.py` it comes from is not under src/,
only its tests are.  Preconditions in the spec's order: `n >= 0` (else
InvalidArgument), `len(indices) == len(values)` (else LengthMismatch), every
index in `[0, n)` (else IndexOutOfRange); then scatter-and-overwrite into an
all-zero vector of length `n`. -/
def scatter (n : Int) (uids : List Int) (vals : List Rat) :
    Except ScatterError (List Rat) :=
  if n < 0 then .error .invalidArgument
  else if uids.length ≠ vals.length then .error .lengthMismatch
  else if uids.any (fun u => u < 0 ∨ n ≤ u) then .error .indexOutOfRange
  else .ok (applyWrites (List.replicate n.toNat 0) (uids.zip vals))

/-- Sum-normalization with the weight-path zero fallback: an all-zero vector
is returned unchanged, otherwise every element is divided by the sum
(spec section 4.6). -/
def sumNormalize (w : List Rat) : List Rat :=
  if w.sum = 0 then w else w.map (· / w.sum)

/-- Modelled from the spec: `convert_weight_uids_and_vals_to_tensor`
(spec section 4.6): `DenseScatter.scatter` followed by sum-normalization,
where an all-zero scatter yields an all-zero result (the zero-input
uniform fallback of the normalizer is NOT applied on this path). -/
def convert_weight_uids_and_vals_to_tensor (n : Int) (uids : List Int)
    (weights : List Rat) : Except ScatterError (List Rat) :=
  (scatter n uids weights).map sumNormalize

/-- Error taxonomy of the emission quantizer (spec section 4.5); all three
are ValueError-class errors. -/
inductive EmitError
  | lengthMismatch
  | negativeWeight
  | negativeUid
deriving DecidableEq

/-- Spec section 4.5 labels every quantizer error as a ValueError-class
error. -/
def EmitError.valueErrorClass : EmitError → Prop
  | .lengthMismatch => True
  | .negativeWeight => True
  | .negativeUid => True

/-- The maximum representable value of the 16-bit unsigned target width
(spec section 4.5). -/
def U16MAX : Int := 65535

/-- Round to nearest and clamp into `[0, U16MAX]` (spec section 4.5:
clamping, not wraparound, at the integer boundary). -/
def quantizeStep (q : Rat) : Int :=
  min U16MAX (max 0 (round (q * (U16MAX : Rat))))

/-- Modelled from the spec: `convert_values_and_ids_for_emit`
(spec section 4.5); the module it comes from is not under src/.
Preconditions in the spec's order: equal lengths, every weight non-negative,
every uid non-negative, each a ValueError-class failure.  A zero weight sum
yields all-zero quantized values (a valid zero-emission case, not an error);
otherwise weights are normalized to sum 1, scaled by the maximum of the
16-bit unsigned range, rounded and clamped. -/
def convert_values_and_ids_for_emit (uids : List Int) (weights : List Rat) :
    Except EmitError (List Int × List Int) :=
  if uids.length ≠ weights.length then .error .lengthMismatch
  else if weights.any (· < 0) then .error .negativeWeight
  else if uids.any (· < 0) then .error .negativeUid
  else if weights.sum = 0 then .ok (uids, weights.map (fun _ => 0))
  else .ok (uids, weights.map (fun x => quantizeStep (x / weights.sum)))

/-- Modelled from the spec: `SubnetFilter.filter` followed by the same
scatter-and-normalize as the weight path
(`convert_root_weight_uids_and_vals_to_tensor`, spec sections 4.3, 4.6, 7);
the module it comes from is not under src/.  Pairs are the zip of uids and
weights; a pair whose uid is in `subnets` and inside the universe `[0, n)`
is kept, any other pair is dropped with a warning-level diagnostic naming
the dropped uid (spec section 7: on this path an out-of-universe index is
also treated as "subnet unavailable", a non-fatal drop, not an error).
The result pairs the list of warned uids with the dense vector. -/
def convert_root_weight_uids_and_vals_to_tensor (n : Int) (uids : List Int)
    (weights : List Rat) (subnets : List Int) :
    List Int × Except ScatterError (List Rat) :=
  let pairs := uids.zip weights
  let keep := fun (p : Int × Rat) => decide (p.1 ∈ subnets ∧ 0 ≤ p.1 ∧ p.1 < n)
  let kept := pairs.filter keep
  let dropped := (pairs.filter (fun p => !(keep p))).map (fun p => p.1)
  (dropped, (scatter n (kept.map (fun p => p.1)) (kept.map (fun p => p.2))).map sumNormalize)

/-- An uncapped working entry strictly above the limit. -/
def exceeding (limit : Rat) (p : Rat × Bool) : Bool :=
  !p.2 && decide (limit < p.1)

/-- Clip an uncapped entry exceeding the limit down to the limit and mark it
capped; leave any other entry unchanged. -/
def capStep (limit : Rat) (p : Rat × Bool) : Rat × Bool :=
  if exceeding limit p then (limit, true) else p

/-- One clip-and-redistribute pass of the normalizer (spec section 4.4,
step 2) over a working vector of (value, capped) entries.  Every uncapped
entry exceeding `limit` is clipped down to `limit` and marked capped; the
clipped excess is redistributed among the remaining uncapped entries,
proportionally to their values when their mass is positive and in equal
shares when they are all zero (the uniform degenerate case of the
proportional rule); when every entry is capped the whole vector is
re-normalized to sum to 1. -/
def clipPass (limit : Rat) (st : List (Rat × Bool)) : List (Rat × Bool) :=
  let st1 := st.map (capStep limit)
  let excess := (st.map (fun p => if exceeding limit p then p.1 - limit else 0)).sum
  let uncapped := st1.filter (fun p => !p.2)
  let k := uncapped.length
  let s := (uncapped.map (fun p => p.1)).sum
  if k = 0 then
    let tot := (st1.map (fun p => p.1)).sum
    st1.map (fun p => (p.1 / tot, p.2))
  else if s = 0 then
    st1.map (fun p => if p.2 then p else (p.1 + excess / (k : Rat), p.2))
  else
    st1.map (fun p => if p.2 then p else (p.1 + excess * p.1 / s, p.2))

/-- The pass loop: repeat `clipPass` while some uncapped entry exceeds
`limit`.  Each executed pass caps at least one entry, so fuel of one more
than the length always suffices to reach the fixed point. -/
def clipLoop (limit : Rat) : Nat → List (Rat × Bool) → List (Rat × Bool)
  | 0, st => st
  | fuel + 1, st =>
      if st.any (exceeding limit)
      then clipLoop limit fuel (clipPass limit st)
      else st

/-- Modelled from the spec: `WeightNormalizer.normalize` /
`normalize_max_weight` (spec section 4.4); the module it comes from is not
under src/.  Step 1: an all-zero or empty vector yields the uniform vector
1/n.  Step 2: otherwise divide by the sum, then iterate clip-and-redistribute
passes until no element exceeds the limit (or the process has converged). -/
def normalize_max_weight (w : List Rat) (limit : Rat) : List Rat :=
  if w.all (· = 0) then w.map (fun _ => 1 / (w.length : Rat))
  else
    let x := w.map (· / w.sum)
    (clipLoop limit (w.length + 1) (x.map (fun v => (v, false)))).map (fun p => p.1)

/-- C4: for every n and every limit, the normalizer applied to the all-zero
vector of length n (or, with n = 0, the empty vector) returns the uniform
vector 1/n, and for n > 0 the maximum of the result equals exactly 1/n
(expressed as: 1/n is an element and every element is at most 1/n). -/
theorem C4_normalize_zero_gives_uniform (n : Nat) (limit : Rat) :
    normalize_max_weight (List.replicate n 0) limit =
      List.replicate n (1 / (n : Rat)) ∧
    (0 < n →
      (1 / (n : Rat)) ∈ normalize_max_weight (List.replicate n 0) limit ∧
      ∀ v ∈ normalize_max_weight (List.replicate n 0) limit, v ≤ 1 / (n : Rat)) := by
  have hall : (List.replicate n (0 : Rat)).all (· = 0) = true := by
    simp [List.all_eq_true, List.mem_replicate]
  have heq : normalize_max_weight (List.replicate n 0) limit =
      List.replicate n (1 / (n : Rat)) := by
    rw [normalize_max_weight, if_pos hall, List.map_replicate, List.length_replicate]
  refine ⟨heq, fun hn => ?_⟩
  rw [heq]
  constructor
  · exact List.mem_replicate.mpr ⟨by omega, rfl⟩
  · intro v hv
    rw [List.eq_of_mem_replicate hv]

/-- Witness for C4 at n = 4 entries with limit 1/100. -/
theorem C4_normalize_zero_gives_uniform_witness :
    (1 / (4 : Rat)) ∈ normalize_max_weight (List.replicate 4 0) (1 / 100) ∧
      ∀ v ∈ normalize_max_weight (List.replicate 4 0) (1 / 100), v ≤ 1 / (4 : Rat) :=
  (C4_normalize_zero_gives_uniform 4 (1 / 100)).2 (by decide)

/-- The number of uncapped entries of a working vector. -/
def uncount (st : List (Rat × Bool)) : Nat :=
  st.countP (fun p => !p.2)

/-- The working-vector invariant of the clip loop: values are non-negative
and every capped entry sits exactly at the limit. -/
def ClipInv (limit : Rat) (st : List (Rat × Bool)) : Prop :=
  (∀ p ∈ st, 0 ≤ p.1) ∧ (∀ p ∈ st, p.2 = true → p.1 = limit)

theorem countP_lt_of_witness {α : Type} (l : List α) (q r : α → Bool)
    (himp : ∀ a, q a = true → r a = true) :
    ∀ a ∈ l, r a = true → q a = false → l.countP q < l.countP r := by
  induction l with
  | nil => intro a ha; cases ha
  | cons x xs ih =>
    intro a ha hr hq
    rcases List.mem_cons.mp ha with rfl | ha
    · have e0 : (if false = true then 1 else 0) = 0 := rfl
      have e1 : (if true = true then 1 else 0) = 1 := rfl
      rw [List.countP_cons, List.countP_cons, hq, hr, e0, e1]
      have hle : xs.countP q ≤ xs.countP r := List.countP_mono_left (fun b _ => himp b)
      omega
    · have h1 := ih a ha hr hq
      rw [List.countP_cons, List.countP_cons]
      by_cases hx : q x = true
      · rw [hx, himp x hx]; omega
      · rw [Bool.not_eq_true] at hx
        have e1 : (if false = true then 1 else 0) = 0 := rfl
        rw [hx, e1]
        cases hrx : r x
        · rw [e1]
          omega
        · have e2 : (if true = true then 1 else 0) = 1 := rfl
          rw [e2]
          omega

theorem sum_const_list (l : List Rat) (m : Rat) (h : ∀ x ∈ l, x = m) :
    l.sum = (l.length : Rat) * m := by
  induction l with
  | nil => simp
  | cons x xs ih =>
    rw [List.sum_cons, ih (fun y hy => h y (List.mem_cons_of_mem x hy)),
      h x (List.mem_cons_self x xs), List.length_cons]
    push_cast
    ring

theorem list_sum_nonneg (l : List Rat) (h : ∀ x ∈ l, 0 ≤ x) : 0 ≤ l.sum := by
  induction l with
  | nil => simp
  | cons x xs ih =>
    rw [List.sum_cons]
    have := h x (List.mem_cons_self x xs)
    have := ih (fun y hy => h y (List.mem_cons_of_mem x hy))
    linarith

theorem clipLoop_of_any_false (limit : Rat) (fuel : Nat) (st : List (Rat × Bool))
    (h : st.any (exceeding limit) = false) : clipLoop limit fuel st = st := by
  cases fuel with
  | zero => rfl
  | succ fuel => rw [clipLoop, h]; rfl

theorem countP_map_list {α β : Type} (f : α → β) (l : List α) (p : β → Bool) :
    (l.map f).countP p = l.countP (fun a => p (f a)) := by
  induction l with
  | nil => rfl
  | cons x xs ih => rw [List.map_cons, List.countP_cons, List.countP_cons, ih]

theorem capStep_of_exceeding (limit : Rat) (p : Rat × Bool)
    (h : exceeding limit p = true) : capStep limit p = (limit, true) := by
  rw [capStep, if_pos h]

theorem capStep_of_not_exceeding (limit : Rat) (p : Rat × Bool)
    (h : exceeding limit p = false) : capStep limit p = p := by
  rw [capStep, h]
  rfl

theorem exceeding_eq_false_iff (limit : Rat) (p : Rat × Bool) :
    exceeding limit p = false ↔ (p.2 = true ∨ p.1 ≤ limit) := by
  rw [exceeding]
  cases h2 : p.2 <;> simp [not_lt]

theorem capped_of_capStep (limit : Rat) (p : Rat × Bool)
    (hcap : p.2 = true → p.1 = limit) (h : (capStep limit p).2 = true) :
    (capStep limit p).1 = limit := by
  by_cases he : exceeding limit p = true
  · rw [capStep_of_exceeding limit p he]
  · rw [Bool.not_eq_true] at he
    rw [capStep_of_not_exceeding limit p he] at h ⊢
    exact hcap h

theorem nonneg_of_capStep (limit : Rat) (p : Rat × Bool) (hlim : 0 < limit)
    (hp : 0 ≤ p.1) : 0 ≤ (capStep limit p).1 := by
  by_cases he : exceeding limit p = true
  · rw [capStep_of_exceeding limit p he]
    exact le_of_lt hlim
  · rw [Bool.not_eq_true] at he
    rw [capStep_of_not_exceeding limit p he]
    exact hp

/-- Analysis of one executed clip pass: the length is preserved, the number
of uncapped entries strictly decreases, and the result either consists
entirely of capped entries at most the limit (the terminal all-capped
re-normalization) or satisfies the working invariant again. -/
theorem clipPass_cases (limit : Rat) (st : List (Rat × Bool))
    (hinv : ClipInv limit st) (hlim : 0 < limit)
    (hlen : (1 : Rat) / (st.length : Rat) ≤ limit)
    (hany : st.any (exceeding limit) = true) :
    (clipPass limit st).length = st.length ∧
    uncount (clipPass limit st) < uncount st ∧
    ((∀ p ∈ clipPass limit st, p.1 ≤ limit ∧ p.2 = true) ∨
      ClipInv limit (clipPass limit st)) := by
  obtain ⟨hnn, hcap⟩ := hinv
  obtain ⟨a, ha, hexa⟩ := List.any_eq_true.mp hany
  have hcap1 : ∀ p ∈ st.map (capStep limit), p.2 = true → p.1 = limit := by
    intro p hp ht
    obtain ⟨q, hq, rfl⟩ := List.mem_map.mp hp
    exact capped_of_capStep limit q (hcap q hq) ht
  have hnn1 : ∀ p ∈ st.map (capStep limit), 0 ≤ p.1 := by
    intro p hp
    obtain ⟨q, hq, rfl⟩ := List.mem_map.mp hp
    exact nonneg_of_capStep limit q hlim (hnn q hq)
  have hexc : 0 ≤ (st.map (fun p => if exceeding limit p then p.1 - limit else 0)).sum := by
    apply list_sum_nonneg
    intro x hx
    obtain ⟨q, hq, rfl⟩ := List.mem_map.mp hx
    by_cases he : exceeding limit q = true
    · rw [if_pos he]
      have : limit < q.1 := by
        rw [exceeding, Bool.and_eq_true, decide_eq_true_eq] at he
        exact he.2
      linarith
    · rw [if_neg he]
  have hcount1 : (st.map (capStep limit)).countP (fun p => !p.2) <
      st.countP (fun p => !p.2) := by
    rw [countP_map_list]
    apply countP_lt_of_witness st (fun p => !(capStep limit p).2) (fun p => !p.2) ?himp
      a ha ?hr ?hq
    case himp =>
      intro q hq
      have hq' : (!(capStep limit q).2) = true := hq
      show (!q.2) = true
      by_cases he : exceeding limit q = true
      · rw [capStep_of_exceeding limit q he] at hq'
        simp at hq'
      · rw [Bool.not_eq_true] at he
        rw [capStep_of_not_exceeding limit q he] at hq'
        exact hq'
    case hr =>
      show (!a.2) = true
      rw [exceeding, Bool.and_eq_true] at hexa
      exact hexa.1
    case hq =>
      show (!(capStep limit a).2) = false
      rw [capStep_of_exceeding limit a hexa]
      rfl
  have hlength : st.length ≠ 0 := by
    intro h0
    rw [List.length_eq_zero] at h0
    subst h0
    cases ha
  -- unfold the pass and case on its three branches
  rw [clipPass]
  set st1 := st.map (capStep limit) with hst1
  have hlen1 : st1.length = st.length := List.length_map st (capStep limit)
  by_cases hk : (st1.filter (fun p => !p.2)).length = 0
  · -- all entries capped: the whole vector is re-normalized
    rw [if_pos hk]
    have hallcap : ∀ p ∈ st1, p.2 = true := by
      intro p hp
      by_contra hfalse
      rw [Bool.not_eq_true] at hfalse
      have : p ∈ st1.filter (fun p => !p.2) := by
        rw [List.mem_filter]
        exact ⟨hp, by rw [hfalse]; rfl⟩
      rw [List.length_eq_zero] at hk
      rw [hk] at this
      cases this
    have halllim : ∀ p ∈ st1, p.1 = limit := fun p hp => hcap1 p hp (hallcap p hp)
    have htot : (st1.map (fun p => p.1)).sum = (st1.length : Rat) * limit := by
      rw [sum_const_list (st1.map (fun p => p.1)) limit, List.length_map]
      intro x hx
      obtain ⟨q, hq, rfl⟩ := List.mem_map.mp hx
      exact halllim q hq
    refine ⟨by rw [List.length_map]; exact hlen1, ?_, Or.inl ?_⟩
    · have : uncount (st1.map (fun p => (p.1 / (st1.map (fun p => p.1)).sum, p.2))) = 0 := by
        rw [uncount, countP_map_list, List.countP_eq_zero]
        intro p hp
        rw [hallcap p hp]
        simp
      rw [uncount] at *
      rw [this]
      have hpos : 0 < st.countP (fun p => !p.2) := by
        apply List.countP_pos_iff.mpr
        refine ⟨a, ha, ?_⟩
        rw [exceeding, Bool.and_eq_true] at hexa
        exact hexa.1
      exact hpos
    · intro p hp
      obtain ⟨q, hq, rfl⟩ := List.mem_map.mp hp
      constructor
      · rw [halllim q hq, htot, hlen1]
        have hq2 : (0 : Rat) < (st.length : Rat) := by
          have := Nat.pos_of_ne_zero hlength
          exact_mod_cast this
        have h1 : (1 : Rat) ≤ (st.length : Rat) * limit := by
          have hq1 : (1 : Rat) / (st.length : Rat) ≤ limit := hlen
          rw [div_le_iff₀ hq2] at hq1
          linarith
        rw [div_le_iff₀ (mul_pos hq2 hlim)]
        nlinarith
      · exact hallcap q hq
  · rw [if_neg hk]
    by_cases hs : ((st1.filter (fun p => !p.2)).map (fun p => p.1)).sum = 0
    · rw [if_pos hs]
      refine ⟨by rw [List.length_map]; exact hlen1, ?_, Or.inr ⟨?_, ?_⟩⟩
      · rw [uncount, uncount, countP_map_list]
        have heq : ∀ p : Rat × Bool,
            ((if p.2 = true then p
              else (p.1 + (st.map (fun p => if exceeding limit p then p.1 - limit else 0)).sum
                / ((st1.filter (fun p => !p.2)).length : Rat), p.2)).2) = p.2 := by
          intro p
          by_cases h2 : p.2 = true
          · rw [if_pos h2]
          · rw [if_neg h2]
        calc (st1.countP fun p => !(if p.2 = true then p
              else (p.1 + (st.map fun p => if exceeding limit p then p.1 - limit else 0).sum
                / ((st1.filter fun p => !p.2).length : Rat), p.2)).2)
            = st1.countP (fun p => !p.2) := by
              apply List.countP_congr
              intro p _
              rw [heq p]
          _ < st.countP (fun p => !p.2) := hcount1
      · intro p hp
        obtain ⟨q, hq, rfl⟩ := List.mem_map.mp hp
        by_cases h2 : q.2 = true
        · rw [if_pos h2]
          exact hnn1 q hq
        · rw [if_neg h2]
          have h1 : 0 ≤ q.1 := hnn1 q hq
          have h2' : (0 : Rat) ≤ ((st1.filter (fun p => !p.2)).length : Rat) := by positivity
          have h3 : 0 ≤ (st.map (fun p => if exceeding limit p then p.1 - limit else 0)).sum
            / ((st1.filter (fun p => !p.2)).length : Rat) := div_nonneg hexc h2'
          simpa using add_nonneg h1 h3
      · intro p hp ht
        obtain ⟨q, hq, rfl⟩ := List.mem_map.mp hp
        by_cases h2 : q.2 = true
        · rw [if_pos h2] at ht ⊢
          exact hcap1 q hq ht
        · rw [if_neg h2] at ht
          exact absurd ht h2
    · rw [if_neg hs]
      have hspos : 0 < ((st1.filter (fun p => !p.2)).map (fun p => p.1)).sum := by
        have hnn2 : ∀ x ∈ (st1.filter (fun p => !p.2)).map (fun p => p.1), 0 ≤ x := by
          intro x hx
          obtain ⟨q, hq, rfl⟩ := List.mem_map.mp hx
          exact hnn1 q (List.mem_of_mem_filter hq)
        rcases lt_or_eq_of_le (list_sum_nonneg _ hnn2) with h | h
        · exact h
        · exact absurd h.symm hs
      refine ⟨by rw [List.length_map]; exact hlen1, ?_, Or.inr ⟨?_, ?_⟩⟩
      · rw [uncount, uncount, countP_map_list]
        calc (st1.countP fun p => !(if p.2 = true then p
              else (p.1 + (st.map fun p => if exceeding limit p then p.1 - limit else 0).sum
                * p.1 / ((st1.filter fun p => !p.2).map fun p => p.1).sum, p.2)).2)
            = st1.countP (fun p => !p.2) := by
              apply List.countP_congr
              intro p _
              by_cases h2 : p.2 = true
              · rw [if_pos h2]
              · rw [if_neg h2]
          _ < st.countP (fun p => !p.2) := hcount1
      · intro p hp
        obtain ⟨q, hq, rfl⟩ := List.mem_map.mp hp
        by_cases h2 : q.2 = true
        · rw [if_pos h2]
          exact hnn1 q hq
        · rw [if_neg h2]
          have h1 : 0 ≤ q.1 := hnn1 q hq
          have h3 : 0 ≤ (st.map (fun p => if exceeding limit p then p.1 - limit else 0)).sum
              * q.1 / ((st1.filter (fun p => !p.2)).map (fun p => p.1)).sum := by
            apply div_nonneg (mul_nonneg hexc h1) (le_of_lt hspos)
          simpa using add_nonneg h1 h3
      · intro p hp ht
        obtain ⟨q, hq, rfl⟩ := List.mem_map.mp hp
        by_cases h2 : q.2 = true
        · rw [if_pos h2] at ht ⊢
          exact hcap1 q hq ht
        · rw [if_neg h2] at ht
          exact absurd ht h2

/-- Ceiling invariant of the clip loop: starting from a state that satisfies
the working invariant, with enough fuel and a feasible limit, every value of
the final state is at most the limit. -/
theorem clipLoop_ceiling (limit : Rat) (hlim : 0 < limit) :
    ∀ fuel st, ClipInv limit st → uncount st < fuel →
      (1 : Rat) / (st.length : Rat) ≤ limit →
      ∀ p ∈ clipLoop limit fuel st, p.1 ≤ limit := by
  intro fuel
  induction fuel with
  | zero =>
    intro st _ hcount
    omega
  | succ fuel ih =>
    intro st hinv hcount hlen p
    rw [clipLoop]
    by_cases hany : st.any (exceeding limit) = true
    · rw [if_pos hany]
      obtain ⟨hL, hU, hcase⟩ := clipPass_cases limit st hinv hlim hlen hany
      rcases hcase with hterm | hinv'
      · have hfalse : (clipPass limit st).any (exceeding limit) = false := by
          rw [Bool.eq_false_iff]
          intro htrue
          obtain ⟨b, hb, hexb⟩ := List.any_eq_true.mp htrue
          rw [exceeding, Bool.and_eq_true] at hexb
          rw [(hterm b hb).2] at hexb
          simp at hexb
        rw [clipLoop_of_any_false limit fuel _ hfalse]
        intro hp
        exact (hterm p hp).1
      · intro hp
        refine ih (clipPass limit st) hinv' (by omega) ?_ p hp
        rw [hL]
        exact hlen
    · rw [if_neg hany]
      intro hp
      by_cases h2 : p.2 = true
      · rw [hinv.2 p hp h2]
      · by_contra hgt
        apply hany
        apply List.any_eq_true.mpr
        refine ⟨p, hp, ?_⟩
        rw [exceeding, Bool.and_eq_true]
        constructor
        · rw [Bool.not_eq_true] at h2
          rw [h2]
          rfl
        · rw [decide_eq_true_eq]
          exact lt_of_not_le hgt

theorem sum_pos_of_mem (l : List Rat) (hl : ∀ v ∈ l, 0 ≤ v) (x : Rat)
    (hx : x ∈ l) (hxpos : 0 < x) : 0 < l.sum := by
  induction l with
  | nil => cases hx
  | cons y ys ih =>
    rw [List.sum_cons]
    rcases List.mem_cons.mp hx with rfl | hx'
    · have : 0 ≤ ys.sum := list_sum_nonneg ys (fun v hv => hl v (List.mem_cons_of_mem x hv))
      linarith
    · have h1 : 0 ≤ y := hl y (List.mem_cons_self y ys)
      have h2 : 0 < ys.sum := ih (fun v hv => hl v (List.mem_cons_of_mem y hv)) hx'
      linarith

/-- C5: for every non-negative weight vector and limit in (0, 1] with
limit at least 1/n, the normalized result never exceeds the limit at any
element (i.e. its maximum is at most the limit); and when the limit is at
least every element of the plain sum-normalized vector (with w not
all-zero), the result IS the plain sum-normalized vector w / sum(w). -/
theorem C5_normalize_ceiling_and_noop (w : List Rat) (limit : Rat)
    (hw : ∀ v ∈ w, 0 ≤ v) (hl0 : 0 < limit) (hl1 : limit ≤ 1)
    (hln : (1 : Rat) / (w.length : Rat) ≤ limit) :
    (∀ v ∈ normalize_max_weight w limit, v ≤ limit) ∧
    ((∃ v ∈ w, v ≠ 0) → (∀ v ∈ w, v / w.sum ≤ limit) →
      normalize_max_weight w limit = w.map (· / w.sum)) := by
  constructor
  · intro v hv
    rw [normalize_max_weight] at hv
    by_cases hz : w.all (· = 0) = true
    · rw [if_pos hz] at hv
      obtain ⟨q, -, rfl⟩ := List.mem_map.mp hv
      exact hln
    · rw [if_neg hz] at hv
      obtain ⟨p, hp, rfl⟩ := List.mem_map.mp hv
      have hsumpos : 0 < w.sum := by
        rw [Bool.not_eq_true] at hz
        rw [List.all_eq_false] at hz
        obtain ⟨x, hx, hxne⟩ := hz
        have hxne' : x ≠ 0 := by simpa using hxne
        have hx0 : 0 < x := lt_of_le_of_ne (hw x hx) (Ne.symm hxne')
        exact sum_pos_of_mem w hw x hx hx0
      apply clipLoop_ceiling limit hl0 (w.length + 1)
        ((w.map (· / w.sum)).map (fun v => (v, false)))
      · constructor
        · intro p hp
          obtain ⟨q, hq, rfl⟩ := List.mem_map.mp hp
          obtain ⟨x, hx, rfl⟩ := List.mem_map.mp hq
          exact div_nonneg (hw x hx) (le_of_lt hsumpos)
        · intro p hp ht
          obtain ⟨q, hq, rfl⟩ := List.mem_map.mp hp
          cases ht
      · rw [uncount, countP_map_list]
        have : (w.map (· / w.sum)).countP (fun a => !(a, false).2) =
            (w.map (· / w.sum)).length := by
          apply List.countP_eq_length.mpr
          intro x hx
          rfl
        rw [this, List.length_map]
        omega
      · rw [List.length_map, List.length_map]
        exact hln
      · exact hp
  · intro hex hle
    have hz : w.all (· = 0) = false := by
      obtain ⟨v, hv, hvne⟩ := hex
      rw [List.all_eq_false]
      exact ⟨v, hv, by simpa using hvne⟩
    rw [normalize_max_weight, hz]
    simp only [Bool.false_eq_true, if_false]
    have hfalse : ((w.map (· / w.sum)).map (fun v => (v, false))).any (exceeding limit)
        = false := by
      rw [Bool.eq_false_iff]
      intro htrue
      obtain ⟨b, hb, hexb⟩ := List.any_eq_true.mp htrue
      obtain ⟨q, hq, rfl⟩ := List.mem_map.mp hb
      obtain ⟨x, hx, rfl⟩ := List.mem_map.mp hq
      rw [exceeding, Bool.and_eq_true, decide_eq_true_eq] at hexb
      exact absurd hexb.2 (not_lt.mpr (hle x hx))
    rw [clipLoop_of_any_false limit (w.length + 1) _ hfalse]
    rw [List.map_map]
    have hid : ((fun (p : Rat × Bool) => p.1) ∘ fun (v : Rat) => (v, false)) = id := by
      funext v
      rfl
    rw [hid, List.map_id]

/-- Witness for C5: the ceiling at w = [3, 1] with limit 3/5, and the no-op
case at w = [1, 3] with limit 1. -/
theorem C5_normalize_ceiling_and_noop_witness :
    (∀ v ∈ normalize_max_weight [3, 1] (3/5), v ≤ 3/5) ∧
      normalize_max_weight [1, 3] 1 = [1/4, 3/4] := by
  constructor
  · exact (C5_normalize_ceiling_and_noop [3, 1] (3/5)
      (by norm_num [List.forall_mem_cons]) (by norm_num) (by norm_num)
      (by norm_num)).1
  · have h := (C5_normalize_ceiling_and_noop [1, 3] 1
      (by norm_num [List.forall_mem_cons]) (by norm_num) (by norm_num)
      (by norm_num)).2 ⟨1, by norm_num, by norm_num⟩
      (by norm_num [List.forall_mem_cons])
    rw [h]
    norm_num

theorem applyWrites_length (init : List Rat) (pairs : List (Int × Rat)) :
    (applyWrites init pairs).length = init.length := by
  induction pairs generalizing init with
  | nil => rfl
  | cons p ps ih =>
    rw [applyWrites, List.foldl_cons]
    show (applyWrites (init.set p.1.toNat p.2) ps).length = init.length
    rw [ih, List.length_set]

theorem applyWrites_zero (init : List Rat) (pairs : List (Int × Rat))
    (hinit : ∀ x ∈ init, x = 0) (hz : ∀ p ∈ pairs, p.2 = 0) :
    ∀ x ∈ applyWrites init pairs, x = 0 := by
  induction pairs generalizing init with
  | nil => exact hinit
  | cons p ps ih =>
    rw [applyWrites, List.foldl_cons]
    apply ih
    · intro x hx
      rcases List.mem_or_eq_of_mem_set hx with hx' | rfl
      · exact hinit x hx'
      · exact hz p (List.mem_cons_self p ps)
    · intro q hq
      exact hz q (List.mem_cons_of_mem p hq)

theorem scatter_of_neg (n : Int) (uids : List Int) (vals : List Rat) (h : n < 0) :
    scatter n uids vals = .error .invalidArgument := by
  rw [scatter, if_pos h]

theorem scatter_of_mismatch (n : Int) (uids : List Int) (vals : List Rat)
    (hn : ¬n < 0) (h : uids.length ≠ vals.length) :
    scatter n uids vals = .error .lengthMismatch := by
  rw [scatter, if_neg hn, if_pos h]

theorem scatter_of_oob (n : Int) (uids : List Int) (vals : List Rat)
    (hn : ¬n < 0) (hlen : uids.length = vals.length)
    (h : (uids.any fun u => decide (u < 0 ∨ n ≤ u)) = true) :
    scatter n uids vals = .error .indexOutOfRange := by
  rw [scatter, if_neg hn, if_neg (not_not_intro hlen), if_pos h]

theorem scatter_any_false (n : Int) (uids : List Int)
    (hrange : ∀ u ∈ uids, 0 ≤ u ∧ u < n) :
    (uids.any fun u => decide (u < 0 ∨ n ≤ u)) = false := by
  rw [List.any_eq_false]
  intro u hu
  obtain ⟨h1, h2⟩ := hrange u hu
  simp only [decide_eq_true_eq, not_or]
  exact ⟨not_lt.mpr h1, not_le.mpr h2⟩

theorem scatter_ok (n : Int) (uids : List Int) (vals : List Rat) (hn : 0 ≤ n)
    (hlen : uids.length = vals.length) (hrange : ∀ u ∈ uids, 0 ≤ u ∧ u < n) :
    scatter n uids vals = .ok (applyWrites (List.replicate n.toNat 0) (uids.zip vals)) := by
  rw [scatter, if_neg (not_lt.mpr hn), if_neg (not_not_intro hlen), if_neg]
  rw [scatter_any_false n uids hrange]
  simp

/-- C6 counterexample: at n = -1, uids = [0], vals = [1] the claim's
iff-characterizations conflict: uid 0 satisfies "some uid < 0 or >= n"
(0 >= -1), so the claim demands an IndexOutOfRange failure, but the call
fails with InvalidArgument because the negative-n check fires first. -/
theorem C6_scatter_counterexample :
    scatter (-1) [0] [1] = .error .invalidArgument ∧
      ¬(scatter (-1) [0] [1] = .error .indexOutOfRange ↔
        ∃ u ∈ ([0] : List Int), u < 0 ∨ (-1 : Int) ≤ u) := by
  refine ⟨rfl, fun h => ?_⟩
  have h2 := h.mpr ⟨0, List.mem_singleton.mpr rfl, Or.inr (by norm_num)⟩
  have h3 : (Except.error ScatterError.invalidArgument : Except ScatterError (List Rat)) =
      .error .indexOutOfRange := by
    rw [← h2]
    rfl
  simp at h3

/-- C6 (amended): the scatter validations apply in order.  The call fails
with InvalidArgument iff n < 0; given n ≥ 0 it fails with LengthMismatch iff
the lengths differ; given n ≥ 0 and equal lengths it fails with
IndexOutOfRange iff some uid is < 0 or ≥ n; otherwise it succeeds, empty
inputs yield the all-zero vector of length n, and a later duplicate write
overwrites an earlier one (last-write-wins). -/
theorem C6_scatter_amended (n : Int) (uids : List Int) (vals : List Rat) :
    (scatter n uids vals = .error .invalidArgument ↔ n < 0) ∧
    (0 ≤ n →
      (scatter n uids vals = .error .lengthMismatch ↔ uids.length ≠ vals.length)) ∧
    (0 ≤ n → uids.length = vals.length →
      (scatter n uids vals = .error .indexOutOfRange ↔ ∃ u ∈ uids, u < 0 ∨ n ≤ u)) ∧
    (0 ≤ n → uids.length = vals.length → (∀ u ∈ uids, 0 ≤ u ∧ u < n) →
      ∃ w, scatter n uids vals = .ok w ∧ w.length = n.toNat) ∧
    (0 ≤ n → scatter n [] ([] : List Rat) = .ok (List.replicate n.toNat 0)) ∧
    (0 ≤ n → uids.length = vals.length → (∀ u ∈ uids, 0 ≤ u ∧ u < n) →
      ∀ u v, 0 ≤ u → u < n →
        ∀ w, scatter n uids vals = .ok w →
          scatter n (uids ++ [u]) (vals ++ [v]) = .ok (w.set u.toNat v)) := by
  refine ⟨?_, ?_, ?_, ?_, ?_, ?_⟩
  · constructor
    · intro h
      by_contra hn
      by_cases h2 : uids.length ≠ vals.length
      · rw [scatter_of_mismatch n uids vals hn h2] at h
        simp at h
      · by_cases h3 : (uids.any fun u => decide (u < 0 ∨ n ≤ u)) = true
        · rw [scatter_of_oob n uids vals hn (not_not.mp h2) h3] at h
          simp at h
        · rw [scatter_ok n uids vals (not_lt.mp hn) (not_not.mp h2)] at h
          · simp at h
          · intro u hu
            rw [Bool.not_eq_true, List.any_eq_false] at h3
            have := h3 u hu
            simp only [decide_eq_true_eq, not_or] at this
            exact ⟨not_lt.mp this.1, not_le.mp this.2⟩
    · intro h
      exact scatter_of_neg n uids vals h
  · intro hn
    constructor
    · intro h
      by_contra h2
      by_cases h3 : (uids.any fun u => decide (u < 0 ∨ n ≤ u)) = true
      · rw [scatter_of_oob n uids vals (not_lt.mpr hn) h2 h3] at h
        simp at h
      · rw [scatter_ok n uids vals hn h2] at h
        · simp at h
        · intro u hu
          rw [Bool.not_eq_true, List.any_eq_false] at h3
          have := h3 u hu
          simp only [decide_eq_true_eq, not_or] at this
          exact ⟨not_lt.mp this.1, not_le.mp this.2⟩
    · intro h
      exact scatter_of_mismatch n uids vals (not_lt.mpr hn) h
  · intro hn hlen
    constructor
    · intro h
      by_cases h3 : (uids.any fun u => decide (u < 0 ∨ n ≤ u)) = true
      · obtain ⟨u, hu, hor⟩ := List.any_eq_true.mp h3
        refine ⟨u, hu, ?_⟩
        simpa using hor
      · rw [scatter_ok n uids vals hn hlen] at h
        · simp at h
        · intro u hu
          rw [Bool.not_eq_true, List.any_eq_false] at h3
          have := h3 u hu
          simp only [decide_eq_true_eq, not_or] at this
          exact ⟨not_lt.mp this.1, not_le.mp this.2⟩
    · intro ⟨u, hu, hor⟩
      apply scatter_of_oob n uids vals (not_lt.mpr hn) hlen
      apply List.any_eq_true.mpr
      refine ⟨u, hu, ?_⟩
      simpa using hor
  · intro hn hlen hrange
    refine ⟨_, scatter_ok n uids vals hn hlen hrange, ?_⟩
    rw [applyWrites_length, List.length_replicate]
  · intro hn
    rw [scatter_ok n [] [] hn rfl (by intro u hu; cases hu)]
    rfl
  · intro hn hlen hrange u v hu0 hun w hw
    rw [scatter_ok n uids vals hn hlen hrange] at hw
    have hw' : w = applyWrites (List.replicate n.toNat 0) (uids.zip vals) :=
      (Except.ok.inj hw).symm
    have hrange2 : ∀ x ∈ uids ++ [u], 0 ≤ x ∧ x < n := by
      intro x hx
      rcases List.mem_append.mp hx with hx | hx
      · exact hrange x hx
      · rw [List.mem_singleton.mp hx]
        exact ⟨hu0, hun⟩
    rw [scatter_ok n (uids ++ [u]) (vals ++ [v]) hn (by simp [hlen]) hrange2]
    rw [List.zip_append hlen, applyWrites, List.foldl_append]
    rw [hw']
    rfl

/-- Witness for C6 (amended) at n = 3: a duplicate write to index 0 wins
over the earlier write. -/
theorem C6_scatter_amended_witness :
    scatter 3 [0, 0] [1, 2] = .ok (([1, 0, 0] : List Rat).set 0 2) := by
  have hr : ∀ u ∈ ([0] : List Int), 0 ≤ u ∧ u < 3 := by
    norm_num [List.forall_mem_cons]
  have hw : scatter 3 [0] [1] = .ok [1, 0, 0] := rfl
  have h := (C6_scatter_amended 3 [0] [1]).2.2.2.2.2 (by norm_num) rfl hr 0 2
    le_rfl (by norm_num) [1, 0, 0] hw
  exact h

/-- C7: for every n ≥ 0 and in-range uids with all-zero weight values,
convert_weight_uids_and_vals_to_tensor returns the all-zero vector of
length n — the zero-input uniform 1/n fallback of the normalizer is not
applied on this path. -/
theorem C7_zero_weight_conversion_stays_zero (n : Int) (uids : List Int)
    (vals : List Rat) (hn : 0 ≤ n) (hlen : uids.length = vals.length)
    (hrange : ∀ u ∈ uids, 0 ≤ u ∧ u < n) (hz : ∀ v ∈ vals, v = 0) :
    convert_weight_uids_and_vals_to_tensor n uids vals =
      .ok (List.replicate n.toNat 0) := by
  rw [convert_weight_uids_and_vals_to_tensor, scatter_ok n uids vals hn hlen hrange]
  have hzero : ∀ x ∈ applyWrites (List.replicate n.toNat 0) (uids.zip vals), x = 0 := by
    apply applyWrites_zero
    · intro x hx
      exact List.eq_of_mem_replicate hx
    · intro p hp
      obtain ⟨a, b⟩ := p
      exact hz b (List.of_mem_zip hp).2
  have heq : applyWrites (List.replicate n.toNat 0) (uids.zip vals) =
      List.replicate n.toNat 0 := by
    apply List.eq_replicate_iff.mpr
    refine ⟨?_, hzero⟩
    rw [applyWrites_length, List.length_replicate]
  show Except.ok (sumNormalize (applyWrites (List.replicate n.toNat 0) (uids.zip vals)))
      = Except.ok (List.replicate n.toNat 0)
  rw [heq, sumNormalize, if_pos]
  rw [List.sum_replicate, smul_zero]

/-- Witness for C7 at n = 4 with every weight zero. -/
theorem C7_zero_weight_conversion_stays_zero_witness :
    convert_weight_uids_and_vals_to_tensor 4 [0, 1, 2, 3] [0, 0, 0, 0] =
      .ok (List.replicate 4 0) :=
  C7_zero_weight_conversion_stays_zero 4 [0, 1, 2, 3] [0, 0, 0, 0] (by norm_num) rfl
    (by norm_num [List.forall_mem_cons]) (by norm_num [List.forall_mem_cons])

/-- C8: zero-sum emission succeeds with every output quantized value 0
(given equal lengths and non-negative uids and weights); a negative weight,
a negative uid, or unequal lengths each make the call fail with a
ValueError-class error. -/
theorem C8_emit_zero_sum_and_validation (uids : List Int) (weights : List Rat) :
    (uids.length = weights.length → (∀ u ∈ uids, 0 ≤ u) → (∀ x ∈ weights, 0 ≤ x) →
      weights.sum = 0 →
      convert_values_and_ids_for_emit uids weights =
        .ok (uids, weights.map (fun _ => 0))) ∧
    ((∃ x ∈ weights, x < 0) →
      ∃ e, convert_values_and_ids_for_emit uids weights = .error e ∧
        e.valueErrorClass) ∧
    ((∃ u ∈ uids, u < 0) →
      ∃ e, convert_values_and_ids_for_emit uids weights = .error e ∧
        e.valueErrorClass) ∧
    (uids.length ≠ weights.length →
      ∃ e, convert_values_and_ids_for_emit uids weights = .error e ∧
        e.valueErrorClass) := by
  refine ⟨?_, ?_, ?_, ?_⟩
  · intro hlen hu hw hsum
    rw [convert_values_and_ids_for_emit, if_neg (not_not_intro hlen), if_neg, if_neg,
      if_pos hsum]
    · rw [Bool.not_eq_true, List.any_eq_false]
      intro u hu'
      simpa using hu u hu'
    · rw [Bool.not_eq_true, List.any_eq_false]
      intro x hx
      simpa using hw x hx
  · intro ⟨x, hx, hxlt⟩
    by_cases hlen : uids.length ≠ weights.length
    · refine ⟨.lengthMismatch, ?_, trivial⟩
      rw [convert_values_and_ids_for_emit, if_pos hlen]
    · refine ⟨.negativeWeight, ?_, trivial⟩
      rw [convert_values_and_ids_for_emit, if_neg hlen, if_pos]
      apply List.any_eq_true.mpr
      exact ⟨x, hx, by simpa using hxlt⟩
  · intro ⟨u, hu, hult⟩
    by_cases hlen : uids.length ≠ weights.length
    · refine ⟨.lengthMismatch, ?_, trivial⟩
      rw [convert_values_and_ids_for_emit, if_pos hlen]
    · by_cases hneg : (weights.any fun x => decide (x < 0)) = true
      · refine ⟨.negativeWeight, ?_, trivial⟩
        rw [convert_values_and_ids_for_emit, if_neg hlen, if_pos hneg]
      · refine ⟨.negativeUid, ?_, trivial⟩
        rw [convert_values_and_ids_for_emit, if_neg hlen, if_neg hneg, if_pos]
        apply List.any_eq_true.mpr
        exact ⟨u, hu, by simpa using hult⟩
  · intro hlen
    refine ⟨.lengthMismatch, ?_, trivial⟩
    rw [convert_values_and_ids_for_emit, if_pos hlen]

/-- Witness for C8: zero-sum weights emit all-zero values without error. -/
theorem C8_emit_zero_sum_and_validation_witness :
    convert_values_and_ids_for_emit [0, 1] [0, 0] = .ok ([0, 1], [0, 0]) := by
  have h := (C8_emit_zero_sum_and_validation [0, 1] [0, 0]).1 rfl
    (by norm_num [List.forall_mem_cons]) (by norm_num [List.forall_mem_cons])
    (by norm_num)
  exact h

theorem sumNormalize_length (w : List Rat) : (sumNormalize w).length = w.length := by
  rw [sumNormalize]
  by_cases h : w.sum = 0
  · rw [if_pos h]
  · rw [if_neg h, List.length_map]

/-- C9: whenever some zipped uid is outside the given subnets set, the root
conversion does not raise: every such uid is dropped and reported in the
warning list, and processing continues with the remaining pairs to produce
a dense vector of length n. -/
theorem C9_root_conversion_drops_with_warning (n : Int) (uids : List Int)
    (weights : List Rat) (subnets : List Int) (hn : 0 ≤ n)
    (hex : ∃ p ∈ uids.zip weights, p.1 ∉ subnets) :
    (∀ p ∈ uids.zip weights, p.1 ∉ subnets →
      p.1 ∈ (convert_root_weight_uids_and_vals_to_tensor n uids weights subnets).1) ∧
    (∃ w, (convert_root_weight_uids_and_vals_to_tensor n uids weights subnets).2 =
        .ok w ∧ w.length = n.toNat) := by
  constructor
  · intro p hp hpn
    show p.1 ∈ ((uids.zip weights).filter
      (fun p => !(decide (p.1 ∈ subnets ∧ 0 ≤ p.1 ∧ p.1 < n)))).map (fun p => p.1)
    apply List.mem_map.mpr
    refine ⟨p, ?_, rfl⟩
    rw [List.mem_filter]
    refine ⟨hp, ?_⟩
    rw [Bool.not_eq_true', decide_eq_false_iff_not]
    intro hand
    exact hpn hand.1
  · have hrange : ∀ u ∈ ((uids.zip weights).filter
        (fun p => decide (p.1 ∈ subnets ∧ 0 ≤ p.1 ∧ p.1 < n))).map (fun p => p.1),
        0 ≤ u ∧ u < n := by
      intro u hu
      obtain ⟨q, hq, rfl⟩ := List.mem_map.mp hu
      have := (List.mem_filter.mp hq).2
      rw [decide_eq_true_eq] at this
      exact this.2
    show ∃ w, (scatter n _ _).map sumNormalize = .ok w ∧ w.length = n.toNat
    rw [scatter_ok n _ _ hn (by rw [List.length_map, List.length_map]) hrange]
    refine ⟨_, rfl, ?_⟩
    rw [sumNormalize_length, applyWrites_length, List.length_replicate]

/-- Witness for C9: uid 3 is outside subnets [1, 2]; it is warned about and
dropped while the call still produces a dense vector of length 3. -/
theorem C9_root_conversion_drops_with_warning_witness :
    (3 : Int) ∈ (convert_root_weight_uids_and_vals_to_tensor 3 [1, 3] [100, 200] [1, 2]).1 ∧
    ∃ w, (convert_root_weight_uids_and_vals_to_tensor 3 [1, 3] [100, 200] [1, 2]).2 =
        .ok w ∧ w.length = 3 := by
  have h := C9_root_conversion_drops_with_warning 3 [1, 3] [100, 200] [1, 2]
    (by norm_num) ⟨(3, 200), by decide, by decide⟩
  exact ⟨h.1 (3, 200) (by decide) (by decide), h.2⟩

end Bittensor
